import Mathlib

/-!
Verification development for the sindri instrument-driver core:
the IEEE 488.2 arbitrary-block codec (src/ieee4882/arbitrary_block.py),
the pipeline mixins (src/mixins.py) and the Anritsu error-queue
interpretation (src/sindri/anritsu/common.py).

Byte strings are embedded as lists of byte values (`List Nat`); Python
exceptions become explicit error values in `Except`/`Option` results.
-/

set_option autoImplicit false

namespace Sindri

abbrev Bytes := List Nat

instance {ε α : Type} [DecidableEq ε] [DecidableEq α] : DecidableEq (Except ε α) :=
  fun x y =>
  match x, y with
  | .ok a, .ok b =>
    if h : a = b then isTrue (by rw [h]) else isFalse (by intro hh; cases hh; exact h rfl)
  | .error a, .error b =>
    if h : a = b then isTrue (by rw [h]) else isFalse (by intro hh; cases hh; exact h rfl)
  | .ok _, .error _ => isFalse (by intro hh; cases hh)
  | .error _, .ok _ => isFalse (by intro hh; cases hh)

/-- Python slice semantics for `xs[start:stop]` with step 1: negative
indices count from the end and out-of-range indices are clamped, never
an error. -/
def pySliceList {α : Type} (start stop : Int) (xs : List α) : List α :=
  let n : Int := (xs.length : Int)
  let a := if start < 0 then max 0 (n + start) else min start n
  let b := if stop < 0 then max 0 (n + stop) else min stop n
  (xs.drop a.toNat).take (b.toNat - a.toNat)

/-- The byte is an ASCII decimal digit character. -/
def isDigit (b : Nat) : Bool := decide (48 ≤ b ∧ b ≤ 57)

/-- Numeric value of a byte string of ASCII decimal digits, most
significant digit first. -/
def digitsVal (l : Bytes) : Nat := l.foldl (fun a d => 10 * a + (d - 48)) 0

/-- Python `int()` on an unsigned run of ASCII digit bytes; `none`
models the `ValueError` raised on an empty or non-digit string. -/
def pyNatOfDigits (l : Bytes) : Option Nat :=
  if l ≠ [] ∧ l.all isDigit then some (digitsVal l) else none

/-- Python `int()` on a byte string: an optional single leading sign
followed by one or more ASCII digits; `none` models `ValueError`. -/
def pyIntOfBytes : Bytes → Option Int
  | [] => none
  | b :: rest =>
    if b = 43 then (pyNatOfDigits rest).map Int.ofNat
    else if b = 45 then (pyNatOfDigits rest).map (fun n => -(Int.ofNat n))
    else (pyNatOfDigits (b :: rest)).map Int.ofNat

/-- Decimal digit characters of `n`, most significant first, empty for 0.
The first argument is recursion fuel; any fuel at least the digit count
of `n` gives the full expansion, and callers pass `n` itself. -/
def decChars : Nat → Nat → Bytes
  | 0, _ => []
  | _ + 1, 0 => []
  | fuel + 1, n + 1 => decChars fuel ((n + 1) / 10) ++ [(n + 1) % 10 + 48]

/-- Python `str()` of a natural number, as ASCII bytes. -/
def pyStrNat (n : Nat) : Bytes :=
  if n = 0 then [48] else decChars n n

/-- `DefiniteLengthBlock._create_block`: the block is
`b'#' + str(len(str(len(data)))) + str(len(data)) + data`. -/
def createBlock (data : Bytes) : Bytes :=
  let length := data.length
  let length_digits := (pyStrNat length).length
  (35 :: (pyStrNat length_digits ++ pyStrNat length)) ++ data

/-- Exceptions that can escape `DefiniteLengthBlock._get_data_slice`:
the codec's own `InvalidBlockFormatError`, or the `ValueError` that
Python's `int()` raises on a malformed length field. -/
inductive BlockErr
  | invalidBlockFormat
  | valueError
deriving DecidableEq, Repr

/-- `DefiniteLengthBlock._get_data_slice`: checks `block[0:1] == b'#'`,
reads the digit count from `block[1:2]` and the length field from
`block[2:int(length_digits)+2]` with Python `int()`, and returns the
slice `(int(length_digits)+2, int(length_digits)+2+int(data_length))`.
No truncation check is performed. -/
def getDataSlice (block : Bytes) : Except BlockErr (Int × Int) :=
  let pound := pySliceList 0 1 block
  if pound ≠ [35] then .error .invalidBlockFormat
  else
    let length_digits := pySliceList 1 2 block
    match pyIntOfBytes length_digits with
    | none => .error .valueError
    | some nd =>
      let data_length := pySliceList 2 (nd + 2) block
      match pyIntOfBytes data_length with
      | none => .error .valueError
      | some dl => .ok (nd + 2, nd + 2 + dl)

/-- The `ArbitraryBlock.data` property of a `DefiniteLengthBlock` built
from a raw block: the stored slice from `_get_data_slice` applied to the
raw block. -/
def decodeData (block : Bytes) : Except BlockErr Bytes :=
  match getDataSlice block with
  | .error e => .error e
  | .ok s => .ok (pySliceList s.1 s.2 block)

/-! ### ArbitraryBlock construction and the Verifiable accessors

Python attribute access with name mangling is modelled explicitly: a
double-underscore attribute written inside class `C` is stored under the
key `_C__name`, so the same source text `self.__checksum` denotes
different keys in `ArbitraryBlock.__init__` and in the `Verifiable`
properties.  Objects are association lists from mangled attribute names
to values, with class-level defaults consulted when the instance lacks
the key. -/

inductive PyVal
  | pyNone
  | pyBytes (bs : Bytes)
  /-- `sha256(data).digest()` of the given data, kept abstract. -/
  | pyDigest (ofData : Bytes)
  /-- a `datetime.utcnow()` value, kept abstract as a clock reading. -/
  | pyTime (t : Nat)
  | pySlicePair (a b : Int)
deriving DecidableEq, Repr

abbrev Obj := List (String × PyVal)

/-- Attribute lookup: the instance dictionary first, then the class
dictionaries along the method resolution order. -/
def lookupAttr (o : Obj) (classAttrs : Obj) (name : String) : Option PyVal :=
  match o.lookup name with
  | some v => some v
  | none => classAttrs.lookup name

/-- Class-level defaults of `Verifiable` (`__utc_stamp = None`,
`__checksum = None`), mangled inside class `Verifiable`. -/
def verifiableClassAttrs : Obj :=
  [("_Verifiable__utc_stamp", .pyNone), ("_Verifiable__checksum", .pyNone)]

/-- Class-level defaults of `ArbitraryBlock` followed by those of
`Verifiable`, in method-resolution order. -/
def arbitraryBlockClassAttrs : Obj :=
  [("_ArbitraryBlock__block", .pyNone), ("_ArbitraryBlock__data", .pyNone),
   ("_ArbitraryBlock__block_id", .pyNone)] ++ verifiableClassAttrs

/-- Exceptions that can escape `ArbitraryBlock.__init__`. Constructing
`NeitherBlockNorDataError` itself raises `AttributeError`, because its
`__init__` evaluates `self.message` and Python 3 exceptions have no
`message` attribute; the intended `neitherBlockNorData` value is
therefore never produced. -/
inductive InitErr
  | attributeErrorMessage
  | neitherBlockNorData
  | blockFormat (e : BlockErr)
deriving DecidableEq, Repr

/-- `ArbitraryBlock.__init__` as specialised by `DefiniteLengthBlock`:
dispatches on the truthiness of `block` and then `data` (so `None` and
empty bytes both fall through), stores the raw block, the data slice,
the identifier, the timestamp and the checksum of the payload under
their mangled names. -/
def dlbInit (block : Option Bytes) (block_id : PyVal) (data : Option Bytes)
    (now : Nat) : Except InitErr Obj :=
  let truthy : Option Bytes → Bool := fun ob =>
    match ob with
    | none => false
    | some bs => !bs.isEmpty
  let build : Bytes → Except InitErr Obj := fun blk =>
    match getDataSlice blk with
    | .error e => .error (.blockFormat e)
    | .ok s =>
      let payload := pySliceList s.1 s.2 blk
      .ok [("_ArbitraryBlock__block", .pyBytes blk),
           ("_ArbitraryBlock__data_slice", .pySlicePair s.1 s.2),
           ("_ArbitraryBlock__block_id", block_id),
           ("_ArbitraryBlock__utc_stamp", .pyTime now),
           ("_ArbitraryBlock__checksum", .pyDigest payload)]
  if truthy block then build (block.getD [])
  else if truthy data then build (createBlock (data.getD []))
  else .error .attributeErrorMessage

/-- The `Verifiable.checksum` property: reads the attribute mangled
inside class `Verifiable`. -/
def checksumProp (o : Obj) : Option PyVal :=
  lookupAttr o arbitraryBlockClassAttrs "_Verifiable__checksum"

/-- The `Verifiable.utc_stamp` property: reads the attribute mangled
inside class `Verifiable`. -/
def utcStampProp (o : Obj) : Option PyVal :=
  lookupAttr o arbitraryBlockClassAttrs "_Verifiable__utc_stamp"

/-! ### The ErrorQueueInstrument pipeline (src/mixins.py)

The mixin is embedded as a state machine over the auto-dequeue flag and
a trace of observable events.  The underlying transport is an oracle:
a boolean tells whether its `send`/`recv` raises.  Python exception
propagation becomes an explicit `exn` result. -/

inductive Ev
  | sendEv
  | sendFailEv
  | recvEv
  | recvFailEv
  | sleepEv
  | dequeueEv
deriving DecidableEq, Repr

structure EqSt where
  flag : Bool
  trace : List Ev
deriving DecidableEq, Repr

inductive Res
  | ok
  | exn
deriving DecidableEq, Repr

/-- `ErrorQueueInstrument.dequeue_error`, on the path where the queried
error is interpreted as the no-error sentinel: saves the flag, disables
it, queries and interprets one error record (the `dequeueEv` event) and
restores the flag. -/
def dequeueError (s : EqSt) : Res × EqSt :=
  let orig := s.flag
  let s1 := EqSt.mk false s.trace
  let s2 := EqSt.mk s1.flag (s1.trace ++ [.dequeueEv])
  (.ok, EqSt.mk orig s2.trace)

/-- `ErrorQueueInstrument.send`: delegates to the transport; if that
raises the exception propagates at once, otherwise when the flag is set
it sleeps for the auto-dequeue delay and drains one error. -/
def eqInstSend (sendOk : Bool) (s : EqSt) : Res × EqSt :=
  if sendOk then
    let s1 := EqSt.mk s.flag (s.trace ++ [.sendEv])
    if s1.flag then dequeueError (EqSt.mk s1.flag (s1.trace ++ [.sleepEv]))
    else (.ok, s1)
  else (.exn, EqSt.mk s.flag (s.trace ++ [.sendFailEv]))

/-- `ErrorQueueInstrument.recv`: delegates to the transport with no
error-queue side effect. -/
def eqRecv (recvOk : Bool) (s : EqSt) : Res × EqSt :=
  if recvOk then (.ok, EqSt.mk s.flag (s.trace ++ [.recvEv]))
  else (.exn, EqSt.mk s.flag (s.trace ++ [.recvFailEv]))

/-- `ErrorQueueInstrument.query`: saves the flag and forces it false,
calls `self.send` outside any protection, then `self.recv` inside a
`try` whose `finally` restores the saved flag, and finally sleeps and
drains once when the restored flag is true. -/
def eqQuery (sendOk recvOk : Bool) (s : EqSt) : Res × EqSt :=
  let orig := s.flag
  let s0 := EqSt.mk false s.trace
  match eqInstSend sendOk s0 with
  | (.exn, s1) => (.exn, s1)
  | (_, s1) =>
    match eqRecv recvOk s1 with
    | (.exn, s2) => (.exn, EqSt.mk orig s2.trace)
    | (_, s2) =>
      let s3 := EqSt.mk orig s2.trace
      if s3.flag then dequeueError (EqSt.mk s3.flag (s3.trace ++ [.sleepEv]))
      else (.ok, s3)

/-! ### The IORateLimiterMixin (src/mixins.py) -/

structure RlSt where
  timeOfLastIo : Option Nat
  ioWaitTime : Nat
deriving DecidableEq, Repr

/-- `IORateLimiterMixin.send`: `__io_wait` only sleeps, then the
underlying send runs; only after it returns is `__time_of_last_io` set
to `datetime.utcnow()` (the value `now`).  A raising underlying send
propagates before the update. -/
def rlSend (underOk : Bool) (now : Nat) (s : RlSt) : Res × RlSt :=
  if underOk then (.ok, RlSt.mk (some now) s.ioWaitTime)
  else (.exn, s)

/-- `IORateLimiterMixin.recv`: same shape as `send`. -/
def rlRecv (underOk : Bool) (now : Nat) (s : RlSt) : Res × RlSt :=
  if underOk then (.ok, RlSt.mk (some now) s.ioWaitTime)
  else (.exn, s)

/-! ### read_definite_length_block (src/ieee4882/arbitrary_block.py)

The raw receive function is an exact byte source: `raw_recv(n)` takes
the next `n` bytes off the source list.  The payload `while` loop is
embedded with explicit fuel (the loop can only hang in Python when the
source under-delivers forever, a case no theorem here quantifies over);
callers pass the declared byte count, which is enough fuel whenever the
chunk size is positive.  Besides the assembled block the embedding also
returns the list of request sizes handed to `raw_recv` for the payload,
and the unconsumed remainder of the source. -/

inductive ReadErr
  | unexpectedResponseFormat
  | valueError
deriving DecidableEq, Repr

/-- The payload `while bytes_remaining > 0` loop: each pass requests
`reach = min(bytes_remaining, receive_chunk)` bytes, subtracts the
length actually received and appends the bytes to the data. -/
def readPayloadLoop : Nat → Bytes → Nat → Nat → Bytes × List Nat × Bytes
  | 0, src, _, _ => ([], [], src)
  | fuel + 1, src, remaining, chunk =>
    if remaining = 0 then ([], [], src)
    else
      let reach := min remaining chunk
      let received := src.take reach
      let next := readPayloadLoop fuel (src.drop reach) (remaining - received.length) chunk
      (received ++ next.1, reach :: next.2.1, next.2.2)

/-- The sequence of request sizes the payload loop issues for a given
byte count and chunk size: `min(remaining, chunk)` repeatedly, until
the count is exhausted (fuel as in `readPayloadLoop`). -/
def reqSeq : Nat → Nat → Nat → List Nat
  | 0, _, _ => []
  | fuel + 1, remaining, chunk =>
    if remaining = 0 then []
    else min remaining chunk :: reqSeq fuel (remaining - min remaining chunk) chunk

/-- The effective chunk size after the guard
`if not receive_chunk: receive_chunk = bytes_remaining`: an unset or
zero chunk becomes the whole remaining length. -/
def effChunk (remaining : Nat) : Option Nat → Nat
  | none => remaining
  | some 0 => remaining
  | some (c + 1) => c + 1

/-- Consume the trailing termination bytes when configured: the code
runs `raw_recv(len(receive_termination))` only when the termination is
truthy (neither `None` nor empty). -/
def consumeTermination (t : Option Bytes) (src : Bytes) : Bytes :=
  match t with
  | none => src
  | some tb => if tb = [] then src else src.drop tb.length

/-- `read_definite_length_block`: reads `#`, the digit-count digit
(which must be ASCII `1`-`9`), the length field, then the payload in
chunks of `min(remaining, chunk)` (the whole length at once when
`recv_chunk` is `None` or `0`), consumes the termination bytes and
assembles the raw block.  Returns the block, the payload request sizes
and the unread remainder of the source. -/
def read_definite_length_block (src : Bytes) (recv_termination : Option Bytes)
    (recv_chunk : Option Nat) : Except ReadErr (Bytes × List Nat × Bytes) :=
  let pound := src.take 1
  let src1 := src.drop 1
  if pound ≠ [35] then .error .unexpectedResponseFormat
  else
    let ndigits := src1.take 1
    let src2 := src1.drop 1
    if ndigits ∉ [[49], [50], [51], [52], [53], [54], [55], [56], [57]] then
      .error .unexpectedResponseFormat
    else
      match pyIntOfBytes ndigits with
      | none => .error .unexpectedResponseFormat
      | some nd =>
        let block_length := src2.take nd.toNat
        let src3 := src2.drop nd.toNat
        if block_length = [] then
          .ok (pound ++ ndigits ++ block_length, [],
               consumeTermination recv_termination src3)
        else
          match pyIntOfBytes block_length with
          | none => .error .valueError
          | some bl =>
            let remaining := bl.toNat
            let chunk := effChunk remaining recv_chunk
            let res := readPayloadLoop remaining src3 remaining chunk
            .ok (pound ++ ndigits ++ block_length ++ res.1, res.2.1,
                 consumeTermination recv_termination res.2.2)

/-! ### Anritsu error interpretation (src/sindri/anritsu/common.py)

`_interpret_error` replaces the no-error sentinels by `'0,No Error'`,
matches the string against the anchored regular expression
`(?P<error_code>.*?),(?P<error_msg>.*)` and raises `InstrumentError`
when the parsed code is nonzero.  A string the expression does not
match makes `.groups()` run on `None` (`AttributeError`), and a code
field `int()` cannot parse raises `ValueError`. -/

inductive InterpErr
  | attributeError
  | valueError
  | instrumentError (code : Int) (msg : List Char)
deriving DecidableEq, Repr

/-- Split a character list at its first comma. -/
def splitFirstComma : List Char → Option (List Char × List Char)
  | [] => none
  | c :: rest =>
    if c = ',' then some ([], rest)
    else (splitFirstComma rest).map (fun p => (c :: p.1, p.2))

/-- `re.match` of the anchored pattern `(.*?),(.*)` on a string: `.`
never matches a newline and `$` also matches just before a final
newline, so the match succeeds exactly on strings that are newline-free
after dropping one trailing newline and contain a comma; the non-greedy
first group takes everything before the first comma. -/
def reMatchCodeMsg (s : List Char) : Option (List Char × List Char) :=
  let t := if s.getLast? = some '\n' then s.dropLast else s
  if '\n' ∈ t then none else splitFirstComma t

/-- Python `str.strip` with a single strip character: removes every
leading and trailing occurrence. -/
def pyStrip (c : Char) (s : List Char) : List Char :=
  (((s.dropWhile (fun x => x = c)).reverse.dropWhile (fun x => x = c))).reverse

/-- `ErrorQueueImplementation._interpret_error`. -/
def interpretError (error : List Char) : Except InterpErr Unit :=
  let error :=
    if error ∈ [['+', '0'], ['0'], ([] : List Char)] then "0,No Error".toList
    else error
  match reMatchCodeMsg error with
  | none => .error .attributeError
  | some p =>
    match pyIntOfBytes (p.1.map Char.toNat) with
    | none => .error .valueError
    | some code =>
      if code ≠ 0 then .error (.instrumentError code (pyStrip '"' p.2))
      else .ok ()

/-! ### Lemmas about the decimal embedding -/

theorem pySliceList_ofNat {α : Type} (a b : Nat) (xs : List α) :
    pySliceList (a : Int) (b : Int) xs = (xs.drop a).take (b - a) := by
  unfold pySliceList
  have ha : ¬ ((a : Int) < 0) := by omega
  have hb : ¬ ((b : Int) < 0) := by omega
  simp only [if_neg ha, if_neg hb]
  have hmina : (min (a : Int) ((xs.length : Nat) : Int)).toNat = min a xs.length := by omega
  have hminb : (min (b : Int) ((xs.length : Nat) : Int)).toNat = min b xs.length := by omega
  rw [hmina, hminb]
  rcases le_or_lt a xs.length with hle | hlt
  · rw [Nat.min_eq_left hle]
    rcases le_or_lt b xs.length with hble | hblt
    · rw [Nat.min_eq_left hble]
    · rw [Nat.min_eq_right (Nat.le_of_lt hblt)]
      have hlen : (xs.drop a).length = xs.length - a := List.length_drop a xs
      rw [List.take_of_length_le (by omega), List.take_of_length_le (by omega)]
  · have h1 : min a xs.length = xs.length := Nat.min_eq_right (Nat.le_of_lt hlt)
    rw [h1]
    rw [List.drop_of_length_le (le_refl _), List.drop_of_length_le (Nat.le_of_lt hlt)]
    simp

theorem decChars_zero (fuel : Nat) : decChars fuel 0 = [] := by
  cases fuel <;> rfl

theorem decChars_succ (fuel m : Nat) :
    decChars (fuel + 1) (m + 1) = decChars fuel ((m + 1) / 10) ++ [(m + 1) % 10 + 48] := rfl

theorem decChars_all_digits (fuel n : Nat) : (decChars fuel n).all isDigit = true := by
  induction fuel generalizing n with
  | zero => rfl
  | succ f ih =>
    cases n with
    | zero => rfl
    | succ m =>
      rw [decChars_succ, List.all_append]
      have hlt : (m + 1) % 10 < 10 := Nat.mod_lt _ (by norm_num)
      simp only [ih, List.all_cons, List.all_nil, Bool.and_true, Bool.true_and, isDigit,
        decide_eq_true_eq]
      omega

theorem digitsVal_decChars (fuel : Nat) :
    ∀ n a, n ≤ fuel →
      List.foldl (fun x d => 10 * x + (d - 48)) a (decChars fuel n) =
        a * 10 ^ (decChars fuel n).length + n := by
  induction fuel with
  | zero =>
    intro n a h
    have hn : n = 0 := Nat.le_zero.mp h
    subst hn
    simp [decChars]
  | succ f ih =>
    intro n a h
    cases n with
    | zero => simp [decChars]
    | succ m =>
      have hq : (m + 1) / 10 ≤ f := by
        have := Nat.div_lt_self (Nat.succ_pos m) (by norm_num : 1 < 10)
        omega
      rw [decChars_succ, List.foldl_append, ih _ _ hq]
      simp only [List.foldl_cons, List.foldl_nil, List.length_append, List.length_cons,
        List.length_nil, Nat.zero_add]
      have h48 : (m + 1) % 10 + 48 - 48 = (m + 1) % 10 := by omega
      have hdm : 10 * ((m + 1) / 10) + (m + 1) % 10 = m + 1 := Nat.div_add_mod (m + 1) 10
      set q := (m + 1) / 10 with hqdef
      set L := (decChars f q).length with hLdef
      rw [h48, pow_succ]
      calc 10 * (a * 10 ^ L + q) + (m + 1) % 10
          = a * (10 ^ L * 10) + (10 * q + (m + 1) % 10) := by ring
        _ = a * (10 ^ L * 10) + (m + 1) := by rw [hdm]

theorem decChars_length_le (fuel : Nat) :
    ∀ n k, n < 10 ^ k → (decChars fuel n).length ≤ k := by
  induction fuel with
  | zero => intro n k _; simp [decChars]
  | succ f ih =>
    intro n k h
    cases n with
    | zero => simp [decChars]
    | succ m =>
      rw [decChars_succ]
      simp only [List.length_append, List.length_cons, List.length_nil]
      cases k with
      | zero => simp at h
      | succ k0 =>
        have hdiv : (m + 1) / 10 < 10 ^ k0 := by
          rw [Nat.div_lt_iff_lt_mul (by norm_num : 0 < 10)]
          calc m + 1 < 10 ^ (k0 + 1) := h
            _ = 10 ^ k0 * 10 := by rw [pow_succ]
        have := ih ((m + 1) / 10) k0 hdiv
        omega

theorem decChars_ne_nil (fuel n : Nat) (h1 : 1 ≤ n) (h2 : n ≤ fuel) :
    decChars fuel n ≠ [] := by
  cases fuel with
  | zero => omega
  | succ f =>
    cases n with
    | zero => omega
    | succ m => rw [decChars_succ]; simp

theorem decChars_step (fuel n : Nat) (hf : 1 ≤ fuel) (hn : 1 ≤ n) :
    decChars fuel n = decChars (fuel - 1) (n / 10) ++ [n % 10 + 48] := by
  cases fuel with
  | zero => omega
  | succ f =>
    cases n with
    | zero => omega
    | succ m => simpa using decChars_succ f m

theorem decChars_fuel_irrel : ∀ f1 f2 n, n ≤ f1 → n ≤ f2 → decChars f1 n = decChars f2 n := by
  intro f1
  induction f1 with
  | zero =>
    intro f2 n h1 _
    have hn : n = 0 := Nat.le_zero.mp h1
    subst hn
    rw [decChars_zero, decChars_zero]
  | succ f ih =>
    intro f2 n h1 h2
    cases n with
    | zero => rw [decChars_zero, decChars_zero]
    | succ m =>
      cases f2 with
      | zero => omega
      | succ g =>
        rw [decChars_succ, decChars_succ]
        have hq : (m + 1) / 10 < m + 1 := Nat.div_lt_self (Nat.succ_pos m) (by norm_num)
        rw [ih g ((m + 1) / 10) (by omega) (by omega)]

theorem pyStrNat_pow10 (k : Nat) : pyStrNat (10 ^ k) = 49 :: List.replicate k 48 := by
  induction k with
  | zero => rfl
  | succ k ih =>
    have hpos : 1 ≤ 10 ^ (k + 1) := Nat.one_le_pow _ _ (by norm_num)
    have e0 : pyStrNat (10 ^ (k + 1)) = decChars (10 ^ (k + 1)) (10 ^ (k + 1)) := by
      simp only [pyStrNat, if_neg (show ¬ 10 ^ (k + 1) = 0 by omega)]
    rw [e0, decChars_step _ _ (by omega) hpos]
    have hdiv : 10 ^ (k + 1) / 10 = 10 ^ k := by
      rw [pow_succ]
      exact Nat.mul_div_cancel _ (by norm_num)
    have hmod : 10 ^ (k + 1) % 10 = 0 := by
      rw [pow_succ]
      exact Nat.mul_mod_left _ _
    rw [hdiv, hmod]
    have hk1 : 1 ≤ 10 ^ k := Nat.one_le_pow _ _ (by norm_num)
    rw [decChars_fuel_irrel (10 ^ (k + 1) - 1) (10 ^ k) (10 ^ k)
      (by have := Nat.pow_lt_pow_succ (show 1 < 10 by norm_num) (n := k); omega) (le_refl _)]
    have e1 : decChars (10 ^ k) (10 ^ k) = pyStrNat (10 ^ k) := by
      simp only [pyStrNat, if_neg (show ¬ 10 ^ k = 0 by omega)]
    rw [e1, ih, List.cons_append, ← List.replicate_succ']

theorem pyStrNat_all_digits (n : Nat) : (pyStrNat n).all isDigit = true := by
  by_cases hn : n = 0
  · subst hn; rfl
  · simp only [pyStrNat, if_neg hn]
    exact decChars_all_digits n n

theorem pyStrNat_ne_nil (n : Nat) : pyStrNat n ≠ [] := by
  by_cases hn : n = 0
  · subst hn; simp [pyStrNat]
  · simp only [pyStrNat, if_neg hn]
    exact decChars_ne_nil n n (by omega) (le_refl n)

theorem pyStrNat_length_pos (n : Nat) : 1 ≤ (pyStrNat n).length := by
  have h := pyStrNat_ne_nil n
  cases hl : pyStrNat n with
  | nil => exact absurd hl h
  | cons b rest => simp [hl]

theorem pyStrNat_length_le (n k : Nat) (hk : 1 ≤ k) (h : n < 10 ^ k) :
    (pyStrNat n).length ≤ k := by
  by_cases hn : n = 0
  · subst hn; simpa [pyStrNat] using hk
  · simp only [pyStrNat, if_neg hn]
    exact decChars_length_le n n k h

theorem digitsVal_pyStrNat (n : Nat) : digitsVal (pyStrNat n) = n := by
  by_cases hn : n = 0
  · subst hn; rfl
  · simp only [pyStrNat, if_neg hn, digitsVal]
    rw [digitsVal_decChars n n 0 (le_refl n)]
    simp

theorem pyNatOfDigits_digits (L : Bytes) (hne : L ≠ []) (hdig : L.all isDigit = true) :
    pyNatOfDigits L = some (digitsVal L) := by
  unfold pyNatOfDigits
  rw [if_pos ⟨hne, hdig⟩]

theorem pyIntOfBytes_digits (L : Bytes) (hne : L ≠ []) (hdig : L.all isDigit = true) :
    pyIntOfBytes L = some ((digitsVal L : Int)) := by
  cases L with
  | nil => exact absurd rfl hne
  | cons b rest =>
    have hb : isDigit b = true := by
      have := hdig
      simp only [List.all_cons, Bool.and_eq_true] at this
      exact this.1
    have hb48 : 48 ≤ b ∧ b ≤ 57 := by simpa [isDigit] using hb
    simp only [pyIntOfBytes]
    rw [if_neg (show ¬ b = 43 by omega), if_neg (show ¬ b = 45 by omega)]
    rw [pyNatOfDigits_digits _ hne hdig]
    rfl

theorem pyIntOfBytes_pyStrNat (n : Nat) : pyIntOfBytes (pyStrNat n) = some ((n : Int)) := by
  rw [pyIntOfBytes_digits _ (pyStrNat_ne_nil n) (pyStrNat_all_digits n), digitsVal_pyStrNat]

theorem pyStrNat_digit (d : Nat) (h1 : 1 ≤ d) (h2 : d ≤ 9) : pyStrNat d = [48 + d] := by
  interval_cases d <;> rfl

theorem pyIntOfBytes_digit (d : Nat) (h1 : 1 ≤ d) (h2 : d ≤ 9) :
    pyIntOfBytes [48 + d] = some ((d : Int)) := by
  interval_cases d <;> rfl

/-! ### Characterisation of the block decoder on well-formed headers -/

theorem pySliceList_nil {α : Type} : pySliceList 0 1 ([] : List α) = [] := by
  have h := pySliceList_ofNat 0 1 ([] : List α)
  simpa using h

theorem pySliceList_zero_one {α : Type} (x : α) (t : List α) :
    pySliceList 0 1 (x :: t) = [x] := by
  have h := pySliceList_ofNat 0 1 (x :: t)
  simpa using h

theorem pySliceList_one_two {α : Type} (x y : α) (t : List α) :
    pySliceList 1 2 (x :: y :: t) = [y] := by
  have h := pySliceList_ofNat 1 2 (x :: y :: t)
  simpa [List.take_succ_cons] using h

theorem pySliceList_two_two {α : Type} (l : List α) : pySliceList 2 2 l = [] := by
  have h := pySliceList_ofNat 2 2 l
  simpa using h

theorem pyIntOfBytes_nondigit (x : Nat) (hx : isDigit x = false) : pyIntOfBytes [x] = none := by
  simp only [pyIntOfBytes]
  by_cases h43 : x = 43
  · rw [if_pos h43]
    rfl
  · rw [if_neg h43]
    by_cases h45 : x = 45
    · rw [if_pos h45]
      rfl
    · rw [if_neg h45]
      unfold pyNatOfDigits
      rw [if_neg]
      · rfl
      · intro hcond
        have hall := hcond.2
        simp only [List.all_cons, List.all_nil, Bool.and_true, hx] at hall
        exact Bool.false_ne_true hall

theorem createBlock_eq (p : Bytes) :
    createBlock p = (35 :: (pyStrNat (pyStrNat p.length).length ++ pyStrNat p.length)) ++ p := rfl

theorem getDataSlice_valid (d : Nat) (L rest : Bytes) (hd1 : 1 ≤ d) (hd9 : d ≤ 9)
    (hL : L.length = d) (hdig : L.all isDigit = true) :
    getDataSlice (35 :: (48 + d) :: (L ++ rest)) =
      .ok ((d : Int) + 2, (d : Int) + 2 + (digitsVal L : Int)) := by
  have hLne : L ≠ [] := by
    intro h
    rw [h] at hL
    simp at hL
    omega
  have h01 : pySliceList (0 : Int) (1 : Int) (35 :: (48 + d) :: (L ++ rest)) = [35] := by
    have h := pySliceList_ofNat 0 1 (35 :: (48 + d) :: (L ++ rest))
    simpa using h
  have h12 : pySliceList (1 : Int) (2 : Int) (35 :: (48 + d) :: (L ++ rest)) = [48 + d] := by
    have h := pySliceList_ofNat 1 2 (35 :: (48 + d) :: (L ++ rest))
    simpa [List.take_succ_cons] using h
  have h2d : pySliceList (2 : Int) ((d : Int) + 2) (35 :: (48 + d) :: (L ++ rest)) = L := by
    have h := pySliceList_ofNat 2 (d + 2) (35 :: (48 + d) :: (L ++ rest))
    have hc : (((d + 2 : Nat)) : Int) = (d : Int) + 2 := by push_cast; ring
    rw [hc] at h
    have hc2 : (((2 : Nat)) : Int) = (2 : Int) := by norm_num
    rw [hc2] at h
    rw [h]
    have hsub : d + 2 - 2 = d := by omega
    rw [hsub]
    show (L ++ rest).take d = L
    rw [← hL, List.take_left]
  unfold getDataSlice
  simp only [h01, h12, h2d, ne_eq, not_true_eq_false, if_false,
    pyIntOfBytes_digit d hd1 hd9, pyIntOfBytes_digits L hLne hdig]

theorem decodeData_valid (d : Nat) (L rest : Bytes) (hd1 : 1 ≤ d) (hd9 : d ≤ 9)
    (hL : L.length = d) (hdig : L.all isDigit = true) :
    decodeData (35 :: (48 + d) :: (L ++ rest)) = .ok (rest.take (digitsVal L)) := by
  unfold decodeData
  rw [getDataSlice_valid d L rest hd1 hd9 hL hdig]
  have hdrop : List.drop (d + 2) (35 :: (48 + d) :: (L ++ rest)) = rest := by
    rw [show d + 2 = (d + 1) + 1 from rfl]
    rw [List.drop_succ_cons, List.drop_succ_cons]
    rw [← hL, List.drop_left]
  have hslice : pySliceList ((d : Int) + 2) ((d : Int) + 2 + (digitsVal L : Int))
      (35 :: (48 + d) :: (L ++ rest)) = rest.take (digitsVal L) := by
    have h := pySliceList_ofNat (d + 2) (d + 2 + digitsVal L) (35 :: (48 + d) :: (L ++ rest))
    have hc : (((d + 2 : Nat)) : Int) = (d : Int) + 2 := by push_cast; ring
    have hc2 : (((d + 2 + digitsVal L : Nat)) : Int) = (d : Int) + 2 + (digitsVal L : Int) := by
      push_cast
      ring
    rw [hc, hc2] at h
    rw [h, hdrop]
    have hsub : d + 2 + digitsVal L - (d + 2) = digitsVal L := by omega
    rw [hsub]
  simp only [hslice]

/-! ### Claim C1: encode/decode round trip -/

/-- C1 (amended): for every payload whose length has at most nine decimal
digits (length ≤ 999999999), taking the payload slice of the encoded
definite-length block yields exactly the payload.  The bound is forced by
the counterexample: at 10^9 bytes the digit-count field itself needs two
digits and the decoder, which reads exactly one digit-count byte,
misparses the block. -/
theorem C1_roundTrip_amended (p : Bytes) (hp : p.length ≤ 999999999) :
    decodeData (createBlock p) = .ok p := by
  have hpow : (10 : Nat) ^ 9 = 1000000000 := by norm_num
  have hd9 : (pyStrNat p.length).length ≤ 9 :=
    pyStrNat_length_le p.length 9 (by norm_num) (by omega)
  have hd1 : 1 ≤ (pyStrNat p.length).length := pyStrNat_length_pos p.length
  have hblock : createBlock p =
      35 :: (48 + (pyStrNat p.length).length) :: (pyStrNat p.length ++ p) := by
    simp only [createBlock]
    rw [pyStrNat_digit _ hd1 hd9]
    simp
  rw [hblock, decodeData_valid _ _ _ hd1 hd9 rfl (pyStrNat_all_digits _),
    digitsVal_pyStrNat, List.take_length]

/-- Witness for C1: the round trip at the spec's own scenario payload
`b'Hello world'` (11 bytes). -/
theorem C1_roundTrip_witness :
    ([72, 101, 108, 108, 111, 32, 119, 111, 114, 108, 100] : Bytes).length ≤ 999999999 ∧
      decodeData (createBlock [72, 101, 108, 108, 111, 32, 119, 111, 114, 108, 100]) =
        .ok [72, 101, 108, 108, 111, 32, 119, 111, 114, 108, 100] :=
  ⟨by decide, C1_roundTrip_amended _ (by decide)⟩

/-- Decoding the encoded block of any payload of exactly 10^9 bytes
yields the empty payload: the digit-count field of the encoded block is
the two characters `10`, the decoder reads digit count `1` and then
length `0`. -/
theorem decodeData_createBlock_pow9 (p : Bytes) (hp : p.length = 1000000000) :
    decodeData (createBlock p) = .ok [] := by
  have hstr : pyStrNat 1000000000 = 49 :: List.replicate 9 48 := by
    have h := pyStrNat_pow10 9
    norm_num at h
    exact h
  have hstr10 : pyStrNat 10 = [49, 48] := by
    have h := pyStrNat_pow10 1
    norm_num at h
    exact h
  have hlength : (49 :: List.replicate 9 48 : Bytes).length = 10 := by simp
  have hblock : createBlock p =
      35 :: (48 + 1) :: ([48] ++ (49 :: (List.replicate 9 48 ++ p))) := by
    rw [createBlock_eq, hp, hstr, hlength, hstr10]
    simp
  rw [hblock, decodeData_valid 1 [48] _ (by norm_num) (by norm_num) rfl (by decide)]
  have hdv : digitsVal [48] = 0 := by decide
  rw [hdv, List.take_zero]

/-- Counterexample to C1 as stated: a payload of exactly 10^9 bytes
encodes to a block whose digit-count field is the two characters `10`;
decoding reads digit count `1` and length `0` and returns the empty
payload, so the round trip fails. -/
theorem C1_roundTrip_counterexample :
    decodeData (createBlock (List.replicate 1000000000 65)) ≠
      .ok (List.replicate 1000000000 65) := by
  have hlen : (List.replicate 1000000000 65).length = 1000000000 :=
    List.length_replicate 1000000000 65
  rw [decodeData_createBlock_pow9 _ hlen]
  intro hcontra
  have h2 : ([] : Bytes) = List.replicate 1000000000 65 := by
    injection hcontra
  have h3 := congrArg List.length h2
  rw [hlen] at h3
  simp at h3

/-! ### Lemmas for the chunked block reader -/

theorem readPayloadLoop_succ (f : Nat) (src : Bytes) (remaining chunk : Nat) :
    readPayloadLoop (f + 1) src remaining chunk =
      if remaining = 0 then ([], [], src)
      else
        (src.take (min remaining chunk) ++
            (readPayloadLoop f (src.drop (min remaining chunk))
              (remaining - (src.take (min remaining chunk)).length) chunk).1,
          min remaining chunk ::
            (readPayloadLoop f (src.drop (min remaining chunk))
              (remaining - (src.take (min remaining chunk)).length) chunk).2.1,
          (readPayloadLoop f (src.drop (min remaining chunk))
            (remaining - (src.take (min remaining chunk)).length) chunk).2.2) := rfl

theorem reqSeq_succ (f remaining chunk : Nat) :
    reqSeq (f + 1) remaining chunk =
      if remaining = 0 then []
      else min remaining chunk :: reqSeq f (remaining - min remaining chunk) chunk := rfl

/-- On an exact source holding at least `remaining` bytes and with a
positive chunk size (or nothing left to read), the payload loop
consumes exactly `remaining` bytes and returns them in order, issuing
the `reqSeq` request sizes. -/
theorem readPayloadLoop_exact (fuel : Nat) :
    ∀ (src : Bytes) (remaining chunk : Nat),
      remaining = 0 ∨ 1 ≤ chunk → remaining ≤ src.length → remaining ≤ fuel →
      readPayloadLoop fuel src remaining chunk =
        (src.take remaining, reqSeq fuel remaining chunk, src.drop remaining) := by
  induction fuel with
  | zero =>
    intro src remaining chunk hc hs hf
    have h0 : remaining = 0 := Nat.le_zero.mp hf
    subst h0
    simp [readPayloadLoop, reqSeq]
  | succ f ih =>
    intro src remaining chunk hc hs hf
    by_cases h0 : remaining = 0
    · subst h0
      simp [readPayloadLoop_succ, reqSeq_succ]
    · have hchunk : 1 ≤ chunk := by
        rcases hc with h | h
        · exact absurd h h0
        · exact h
      rw [readPayloadLoop_succ, reqSeq_succ, if_neg h0, if_neg h0]
      have hreach_pos : 1 ≤ min remaining chunk := by
        have h1 : 1 ≤ remaining := Nat.one_le_iff_ne_zero.mpr h0
        exact le_min h1 hchunk
      have hreach_le : min remaining chunk ≤ remaining := Nat.min_le_left _ _
      have hlen : (src.take (min remaining chunk)).length = min remaining chunk := by
        rw [List.length_take]
        exact Nat.min_eq_left (by omega)
      rw [hlen]
      rw [ih (src.drop (min remaining chunk)) (remaining - min remaining chunk) chunk
        (Or.inr hchunk) (by rw [List.length_drop]; omega) (by omega)]
      have hm : min remaining chunk + (remaining - min remaining chunk) = remaining := by omega
      have hdata : src.take (min remaining chunk) ++
          (src.drop (min remaining chunk)).take (remaining - min remaining chunk) =
            src.take remaining := by
        rw [← List.take_add, hm]
      have hdrop2 : (src.drop (min remaining chunk)).drop (remaining - min remaining chunk) =
          src.drop remaining := by
        rw [List.drop_drop, hm]
      rw [hdata, hdrop2]

theorem mem_digit_singletons (d : Nat) (h1 : 1 ≤ d) (h2 : d ≤ 9) :
    ([48 + d] : Bytes) ∈ [[49], [50], [51], [52], [53], [54], [55], [56], [57]] := by
  interval_cases d <;> decide

/-- The reader on a well-formed definite-length block whose source holds
the whole payload: for every chunk configuration it returns the same
assembled block and leaves the same remainder; only the request sizes
depend on the chunk size. -/
theorem read_dlb_valid (d : Nat) (L rest : Bytes) (chunkOpt : Option Nat)
    (hd1 : 1 ≤ d) (hd9 : d ≤ 9) (hL : L.length = d) (hdig : L.all isDigit = true)
    (hrest : digitsVal L ≤ rest.length) :
    read_definite_length_block (35 :: (48 + d) :: (L ++ rest)) none chunkOpt =
      .ok (35 :: (48 + d) :: (L ++ rest.take (digitsVal L)),
        reqSeq (digitsVal L) (digitsVal L) (effChunk (digitsVal L) chunkOpt),
        rest.drop (digitsVal L)) := by
  have hLne : L ≠ [] := by
    intro h
    rw [h] at hL
    simp at hL
    omega
  have htake1 : (35 :: (48 + d) :: (L ++ rest)).take 1 = [35] := rfl
  have hdrop1 : (35 :: (48 + d) :: (L ++ rest)).drop 1 = (48 + d) :: (L ++ rest) := rfl
  have hmem := mem_digit_singletons d hd1 hd9
  have htoNat : ((d : Int)).toNat = d := Int.toNat_natCast d
  have htakeL : (L ++ rest).take d = L := by
    rw [← hL]
    exact List.take_left L rest
  have hdropL : (L ++ rest).drop d = rest := by
    rw [← hL]
    exact List.drop_left L rest
  have hchunkPos : digitsVal L = 0 ∨ 1 ≤ effChunk (digitsVal L) chunkOpt := by
    rcases Nat.eq_zero_or_pos (digitsVal L) with h | h
    · exact Or.inl h
    · right
      cases chunkOpt with
      | none => simpa [effChunk] using h
      | some c =>
        cases c with
        | zero => simpa [effChunk] using h
        | succ c0 => simp [effChunk]
  have hloop := readPayloadLoop_exact (digitsVal L) rest (digitsVal L)
    (effChunk (digitsVal L) chunkOpt) hchunkPos hrest (le_refl _)
  simp only [read_definite_length_block, htake1, hdrop1, List.take_succ_cons,
    List.take_zero, List.drop_succ_cons, List.drop_zero, ne_eq, not_true_eq_false,
    if_false, pyIntOfBytes_digit d hd1 hd9, htoNat, htakeL, hdropL,
    pyIntOfBytes_digits L hLne hdig, not_not_intro hmem, if_neg hLne]
  rw [Int.toNat_natCast (digitsVal L)]
  rw [hloop]
  simp [consumeTermination]

/-! ### Lemmas for the error-string interpretation -/

theorem splitFirstComma_spec (code msg : List Char) (h : ',' ∉ code) :
    splitFirstComma (code ++ ',' :: msg) = some (code, msg) := by
  induction code with
  | nil => simp [splitFirstComma]
  | cons c cs ih =>
    have hc : ¬ c = ',' := by
      intro e
      exact h (by rw [e]; exact List.mem_cons_self _ _)
    have htl : ',' ∉ cs := fun hm => h (List.mem_cons_of_mem _ hm)
    simp only [List.cons_append, splitFirstComma, if_neg hc, List.append_eq, ih htl]
    rfl

theorem getLast_ne_newline (code msg : List Char) (hmsg : '\n' ∉ msg) :
    ¬ (code ++ ',' :: msg).getLast? = some '\n' := by
  intro hcontra
  rw [List.getLast?_append_cons] at hcontra
  have hx : '\n' ∈ (',' :: msg).getLast? := Option.mem_def.mpr hcontra
  obtain ⟨hne, heq⟩ := List.mem_getLast?_eq_getLast hx
  have hmem : '\n' ∈ ',' :: msg := by
    rw [heq]
    exact List.getLast_mem hne
  rcases List.mem_cons.mp hmem with h | h
  · exact absurd h (by decide)
  · exact hmsg h

theorem reMatchCodeMsg_spec (code msg : List Char) (hc : ',' ∉ code) (hcn : '\n' ∉ code)
    (hmn : '\n' ∉ msg) :
    reMatchCodeMsg (code ++ ',' :: msg) = some (code, msg) := by
  have hnotmem : ¬ '\n' ∈ code ++ ',' :: msg := by
    intro hm
    rcases List.mem_append.mp hm with h | h
    · exact hcn h
    · rcases List.mem_cons.mp h with h2 | h2
      · exact absurd h2 (by decide)
      · exact hmn h2
  simp only [reMatchCodeMsg, if_neg (getLast_ne_newline code msg hmn), if_neg hnotmem]
  exact splitFirstComma_spec code msg hc

theorem notin_sentinels (code msg : List Char) :
    code ++ ',' :: msg ∉ [['+', '0'], ['0'], ([] : List Char)] := by
  intro hmem
  have hcomma : ',' ∈ code ++ ',' :: msg :=
    List.mem_append.mpr (Or.inr (List.mem_cons_self _ _))
  rcases List.mem_cons.mp hmem with h | hmem2
  · rw [h] at hcomma
    exact absurd hcomma (by decide)
  rcases List.mem_cons.mp hmem2 with h | hmem3
  · rw [h] at hcomma
    exact absurd hcomma (by decide)
  rcases List.mem_cons.mp hmem3 with h | hmem4
  · rw [h] at hcomma
    exact absurd hcomma (by decide)
  · exact absurd hmem4 (List.not_mem_nil _)

/-! ### Claim C3: header rejection -/

/-- C3 (amended): decoding a block header fails with
`InvalidBlockFormatError` for every byte string that is empty or whose
first byte is not `#`.  A second byte that is not an ASCII digit does
not produce `InvalidBlockFormatError`: it raises the `ValueError` of
Python's `int()`.  A second byte of `0` likewise raises `ValueError`
(the length field slice `[2:2]` is empty); the code has no distinct
unsupported-format error. -/
theorem C3_headerRejection_amended :
    (∀ b : Bytes, b.head? ≠ some 35 → getDataSlice b = .error .invalidBlockFormat) ∧
    (∀ (x : Nat) (rest : Bytes), isDigit x = false →
        getDataSlice (35 :: x :: rest) = .error .valueError) ∧
    (∀ rest : Bytes, getDataSlice (35 :: 48 :: rest) = .error .valueError) := by
  refine ⟨?_, ?_, ?_⟩
  · intro b hb
    cases b with
    | nil =>
      simp only [getDataSlice, pySliceList_nil]
      rw [if_pos (by simp)]
    | cons x t =>
      have hx : x ≠ 35 := by
        intro e
        subst e
        exact hb rfl
      simp only [getDataSlice, pySliceList_zero_one]
      rw [if_pos (by simp [hx])]
  · intro x rest hx
    simp only [getDataSlice, pySliceList_zero_one, pySliceList_one_two]
    rw [if_neg (by simp)]
    rw [pyIntOfBytes_nondigit x hx]
  · intro rest
    have h48 : pyIntOfBytes [48] = some 0 := by decide
    simp only [getDataSlice, pySliceList_zero_one, pySliceList_one_two, ne_eq,
      not_true_eq_false, if_false, h48]
    have h02 : (0 : Int) + 2 = 2 := by norm_num
    rw [h02, pySliceList_two_two]
    rfl

/-- Witness for C3: the empty-or-wrong-pound, non-digit and `0` cases at
concrete inputs. -/
theorem C3_headerRejection_witness :
    getDataSlice [97] = .error .invalidBlockFormat ∧
      getDataSlice [35, 90, 97] = .error .valueError ∧
      getDataSlice [35, 48, 49] = .error .valueError := by
  have h := C3_headerRejection_amended
  exact ⟨h.1 [97] (by decide), h.2.1 90 [97] (by decide), h.2.2 [49]⟩

/-- Counterexample to C3 as stated: `b'#0'`, the indefinite-length
marker, is not rejected with a distinct unsupported-format error (no
such error kind exists in the code), nor with `InvalidBlockFormatError`:
decoding raises the undocumented `ValueError` of `int(b'')`. -/
theorem C3_headerRejection_counterexample :
    getDataSlice [35, 48] = .error BlockErr.valueError ∧
      BlockErr.valueError ≠ BlockErr.invalidBlockFormat := by decide

/-! ### Claim C7: payload slice bounds and truncation -/

/-- C7 (amended): for every block with a valid header (leading `#`, a
digit count 1-9, and a full length field of that many digit bytes) the
decoder returns the half-open range
`[digit_count + 2, digit_count + 2 + payload_length)` even when the
block is shorter than that range, and the payload accessor then
silently yields only the bytes available after the header with no
`InvalidBlockFormatError`. -/
theorem C7_payloadSlice_amended (d : Nat) (L rest : Bytes) (hd1 : 1 ≤ d) (hd9 : d ≤ 9)
    (hL : L.length = d) (hdig : L.all isDigit = true) :
    getDataSlice (35 :: (48 + d) :: (L ++ rest)) =
        .ok ((d : Int) + 2, (d : Int) + 2 + (digitsVal L : Int)) ∧
      decodeData (35 :: (48 + d) :: (L ++ rest)) = .ok (rest.take (digitsVal L)) :=
  ⟨getDataSlice_valid d L rest hd1 hd9 hL hdig, decodeData_valid d L rest hd1 hd9 hL hdig⟩

/-- Witness for C7: a well-formed block `b'#15abcde'`. -/
theorem C7_payloadSlice_witness :
    getDataSlice [35, 49, 53, 97, 98, 99, 100, 101] = .ok (3, 8) ∧
      decodeData [35, 49, 53, 97, 98, 99, 100, 101] = .ok [97, 98, 99, 100, 101] := by
  have h := C7_payloadSlice_amended 1 [53] [97, 98, 99, 100, 101]
    (by norm_num) (by norm_num) rfl (by decide)
  refine ⟨?_, ?_⟩
  · have h1 := h.1
    norm_num [digitsVal] at h1 ⊢
    exact h1
  · have h2 := h.2
    norm_num [digitsVal] at h2 ⊢
    exact h2

/-- Counterexample to C7 as stated: the truncated block `b'#15a'`
(header range `[3, 8)` but only 4 bytes total) is not rejected with
`InvalidBlockFormatError`; the payload accessor silently yields the
single available byte. -/
theorem C7_payloadSlice_counterexample :
    getDataSlice [35, 49, 53, 97] = .ok (3, 8) ∧
      decodeData [35, 49, 53, 97] = .ok [97] ∧
      ([35, 49, 53, 97] : Bytes).length < 8 := by decide

/-! ### Claim C2: checksum and timestamp accessors -/

/-- C2 (code bug): constructing a `DefiniteLengthBlock` from payload
`b'abc'` computes the digest and the timestamp and stores them under the
names mangled inside class `ArbitraryBlock`, but the `checksum` and
`utc_stamp` properties read the names mangled inside class `Verifiable`
and therefore return the class default `None` rather than the digest
and the construction-time stamp. -/
theorem C2_checksum_code_bug :
    (dlbInit none .pyNone (some [97, 98, 99]) 7).map checksumProp = .ok (some .pyNone) ∧
      (dlbInit none .pyNone (some [97, 98, 99]) 7).map utcStampProp = .ok (some .pyNone) ∧
      (dlbInit none .pyNone (some [97, 98, 99]) 7).map
          (fun o => o.lookup "_ArbitraryBlock__checksum") =
        .ok (some (.pyDigest [97, 98, 99])) ∧
      PyVal.pyNone ≠ PyVal.pyDigest [97, 98, 99] ∧
      PyVal.pyNone ≠ PyVal.pyTime 7 := by decide

/-! ### Claim C9: empty payload through the constructor -/

/-- C9 (code bug): `DefiniteLengthBlock(data=b'')` falls through both
truthiness tests, but the `raise NeitherBlockNorDataError()` itself
fails with `AttributeError` because the exception's `__init__` reads the
nonexistent `self.message`; the intended error value never escapes. -/
theorem C9_emptyData_code_bug :
    dlbInit none .pyNone (some []) 0 = .error .attributeErrorMessage ∧
      InitErr.attributeErrorMessage ≠ InitErr.neitherBlockNorData := by decide

/-! ### Claim C4: query flag handling and post-query drain -/

/-- C4 (amended): a query forces the flag false so that no drain can
occur between the inner send and recv; on successful completion the
flag is restored and a single sleep-then-dequeue drain follows exactly
when the saved value was true; when recv raises, the `finally` clause
restores the flag; but when send raises, the call `self.send(command)`
sits outside the `try`, so the exception propagates with the flag left
false rather than restored. -/
theorem C4_queryAtomicity_amended (s : EqSt) :
    eqQuery true true s =
        (if s.flag then
          (.ok, EqSt.mk true (s.trace ++ [.sendEv, .recvEv, .sleepEv, .dequeueEv]))
        else (.ok, EqSt.mk false (s.trace ++ [.sendEv, .recvEv]))) ∧
      eqQuery true false s = (.exn, EqSt.mk s.flag (s.trace ++ [.sendEv, .recvFailEv])) ∧
      eqQuery false true s = (.exn, EqSt.mk false (s.trace ++ [.sendFailEv])) ∧
      eqQuery false false s = (.exn, EqSt.mk false (s.trace ++ [.sendFailEv])) := by
  obtain ⟨f, tr⟩ := s
  cases f <;> simp [eqQuery, eqInstSend, eqRecv, dequeueError]

/-- Counterexample to C4 as stated: with the flag initially true and a
raising send, the query exits with the flag still false — the saved
value is not restored on this exit path. -/
theorem C4_queryAtomicity_counterexample :
    eqQuery false true (EqSt.mk true []) = (Res.exn, EqSt.mk false [Ev.sendFailEv]) ∧
      (eqQuery false true (EqSt.mk true [])).2.flag ≠ true := by decide

/-! ### Claim C10: raising send drains nothing -/

/-- C10: when the underlying transport send raises inside
`ErrorQueueInstrument.send`, the exception propagates unchanged and no
drain is attempted — no sleep and no dequeue appear in the trace and
the flag is untouched, whatever its value. -/
theorem C10_sendFailureNoDrain (s : EqSt) :
    eqInstSend false s = (Res.exn, EqSt.mk s.flag (s.trace ++ [Ev.sendFailEv])) := by
  simp [eqInstSend]

/-! ### Claim C8: last-I/O timestamp updates -/

/-- C8 (amended): the rate limiter records the time of last I/O after a
successful send and after a successful recv; when the underlying send
(or recv) raises, the exception propagates before the update and the
recorded time is left unchanged. -/
theorem C8_lastIo_amended (now : Nat) (s : RlSt) :
    (rlSend true now s).2.timeOfLastIo = some now ∧
      (rlRecv true now s).2.timeOfLastIo = some now ∧
      (rlSend false now s).1 = Res.exn ∧
      (rlSend false now s).2 = s ∧
      (rlRecv false now s).2 = s := by
  simp [rlSend, rlRecv]

/-- Counterexample to C8 as stated: a raising send at time 5 with a
previous last-I/O time of 3 leaves the recorded time at 3 instead of
updating it to 5. -/
theorem C8_lastIo_counterexample :
    rlSend false 5 (RlSt.mk (some 3) 0) = (Res.exn, RlSt.mk (some 3) 0) ∧
      (rlSend false 5 (RlSt.mk (some 3) 0)).2.timeOfLastIo ≠ some 5 := by decide

/-! ### Claim C5: chunked payload reading -/

/-- C5: on a source holding a well-formed block, the reader pulls the
payload in requests of `min(remaining, chunk_size)` until the declared
count is exhausted (the whole length in one request when the chunk size
is unset), and the assembled block — hence the resulting
`ArbitraryBlock.data` — is the same for every positive chunk size and
for the unset chunk size; a 10-byte payload with chunk size 3 is
requested in sizes `[3, 3, 3, 1]`. -/
theorem C5_chunkedRead (d : Nat) (L rest : Bytes) (c : Nat)
    (hd1 : 1 ≤ d) (hd9 : d ≤ 9) (hL : L.length = d) (hdig : L.all isDigit = true)
    (hrest : digitsVal L ≤ rest.length) (hc : 1 ≤ c) :
    read_definite_length_block (35 :: (48 + d) :: (L ++ rest)) none (some c) =
        .ok (35 :: (48 + d) :: (L ++ rest.take (digitsVal L)),
          reqSeq (digitsVal L) (digitsVal L) c, rest.drop (digitsVal L)) ∧
      read_definite_length_block (35 :: (48 + d) :: (L ++ rest)) none none =
        .ok (35 :: (48 + d) :: (L ++ rest.take (digitsVal L)),
          reqSeq (digitsVal L) (digitsVal L) (digitsVal L), rest.drop (digitsVal L)) ∧
      decodeData (35 :: (48 + d) :: (L ++ rest.take (digitsVal L))) =
        .ok (rest.take (digitsVal L)) ∧
      reqSeq 10 10 3 = [3, 3, 3, 1] := by
  refine ⟨?_, ?_, ?_, by decide⟩
  · cases c with
    | zero => omega
    | succ c0 =>
      have h := read_dlb_valid d L rest (some (c0 + 1)) hd1 hd9 hL hdig hrest
      simpa [effChunk] using h
  · have h := read_dlb_valid d L rest none hd1 hd9 hL hdig hrest
    simpa [effChunk] using h
  · have h := decodeData_valid d L (rest.take (digitsVal L)) hd1 hd9 hL hdig
    rw [h, List.take_take]
    simp

/-- Witness for C5: the 5-byte payload block `b'#15\x01\x02\x03\x04\x05'`
read with chunk size 2 — requests `[2, 2, 1]` and the payload intact. -/
theorem C5_chunkedRead_witness :
    read_definite_length_block (35 :: (48 + 1) :: ([53] ++ [1, 2, 3, 4, 5])) none (some 2) =
        .ok (35 :: (48 + 1) :: ([53] ++ ([1, 2, 3, 4, 5] : Bytes).take (digitsVal [53])),
          reqSeq (digitsVal [53]) (digitsVal [53]) 2,
          ([1, 2, 3, 4, 5] : Bytes).drop (digitsVal [53])) ∧
      read_definite_length_block [35, 49, 53, 1, 2, 3, 4, 5] none (some 2) =
        .ok ([35, 49, 53, 1, 2, 3, 4, 5], [2, 2, 1], []) :=
  ⟨(C5_chunkedRead 1 [53] [1, 2, 3, 4, 5] 2 (by norm_num) (by norm_num) rfl (by decide)
      (by decide) (by norm_num)).1, by decide⟩

/-! ### Claim C6: error-string interpretation -/

/-- C6: interpreting the no-error sentinels `"0"`, `"+0"` and `""` never
raises; interpreting any comma-separated, newline-free error string
whose code field parses to a nonzero integer raises `InstrumentError`
carrying that code and the quote-stripped message — in particular
`"-224,illegal parameter value"` raises with code `-224` and that
message. -/
theorem C6_interpretError_idempotence :
    interpretError ("0".toList) = .ok () ∧
      interpretError ("+0".toList) = .ok () ∧
      interpretError ("".toList) = .ok () ∧
      (∀ (code msg : List Char) (v : Int),
        ',' ∉ code → '\n' ∉ code → '\n' ∉ msg →
        pyIntOfBytes (code.map Char.toNat) = some v → v ≠ 0 →
        interpretError (code ++ ',' :: msg) =
          .error (.instrumentError v (pyStrip '"' msg))) ∧
      interpretError ("-224,illegal parameter value".toList) =
        .error (.instrumentError (-224) ("illegal parameter value".toList)) := by
  refine ⟨by decide, by decide, by decide, ?_, by decide⟩
  intro code msg v hc hcn hmn hparse hv
  simp only [interpretError, if_neg (notin_sentinels code msg),
    reMatchCodeMsg_spec code msg hc hcn hmn, hparse, if_pos hv]

/-- Witness for C6: `"-225,oops"` raises `InstrumentError` with code
`-225` and message `oops`. -/
theorem C6_interpretError_witness :
    interpretError ("-225,oops".toList) =
      .error (.instrumentError (-225) (pyStrip '"' ("oops".toList))) := by
  have e : ("-225,oops".toList) = ("-225".toList ++ ',' :: "oops".toList) := rfl
  rw [e]
  exact C6_interpretError_idempotence.2.2.2.1 ("-225".toList) ("oops".toList) (-225)
    (by decide) (by decide) (by decide) (by decide) (by decide)

end Sindri
